import Mathlib

/-!
Verification of the `alx-backend-python` repository.

This file shallowly embeds the parts of the repository that the claims
concern:

* `Django-Middleware-0x03/chats/middleware.py` —
  `OffensiveLanguageMiddleware` (per-IP sliding-window rate limiting of
  POSTs to message endpoints) and `RestrictAccessByTimeMiddleware`
  (time-of-day access restriction).
* `Django-signals_orm-0x04/messaging/signals.py` — the
  `post_save`/`pre_save`/`post_delete` signal handlers
  (`create_notification_on_new_message`, `log_message_edit_history`,
  `cleanup_user_related_data`).
* `Django-signals_orm-0x04/messaging/models.py` — `Message.save`
  (thread-root maintenance).
* `python-generators-0x00/2-lazy_paginate.py` — `paginate_users` and
  `lazy_paginate`.

Conventions of the embedding: timestamps (`timezone.now().timestamp()`)
are integers; `timezone.localtime(...).time()` is seconds since
midnight; the database tables touched by the signal handlers are lists
of rows; Django's `transaction.on_commit` callbacks are modelled as the
state transformation observed once the transaction commits; Python
exceptions are modelled with the `Except` monad where the claim needs
them.
-/

/-! ## Substring containment (Python's `p in path`) -/

/-- `needle` occurs as a contiguous run inside `hay` (Python `needle in hay`
on strings, specialised to character lists). -/
def charsContain (hay needle : List Char) : Bool :=
  match hay with
  | [] => needle.isEmpty
  | _ :: t => needle.isPrefixOf hay || charsContain t needle

/-- Python `needle in hay` for strings. -/
def containsSub (hay needle : String) : Bool :=
  charsContain hay.toList needle.toList

/-- Python `s.upper()` on the ASCII strings the middleware compares
(HTTP method names). -/
def pyUpper (s : String) : String :=
  ⟨s.data.map Char.toUpper⟩

/-- Python `s.split(sep)` for a one-character separator, over character
lists: splitting never drops empty fields. -/
def splitOnChar (sep : Char) : List Char → List (List Char)
  | [] => [[]]
  | c :: rest =>
    let r := splitOnChar sep rest
    if c = sep then [] :: r
    else
      match r with
      | [] => [[c]]
      | g :: gs => (c :: g) :: gs

/-- Python `s.strip()` (ASCII whitespace) over character lists. -/
def pyStrip (cs : List Char) : List Char :=
  ((cs.dropWhile Char.isWhitespace).reverse.dropWhile Char.isWhitespace).reverse

/-! ## HTTP requests as the middleware sees them -/

/-- The fields of a Django `HttpRequest` that the chats middleware reads.
`method` is `Option` because `HttpRequest.method` can be `None`, in which
case `request.method.upper()` raises `AttributeError`.  `meta_xff` and
`meta_remote_addr` are `request.META.get("HTTP_X_FORWARDED_FOR")` and
`request.META.get("REMOTE_ADDR")`. -/
structure HttpRequest where
  method : Option String
  path : String
  meta_xff : Option String
  meta_remote_addr : Option String
deriving Repr, DecidableEq

/-! ## OffensiveLanguageMiddleware (rate limiting), from
`Django-Middleware-0x03/chats/middleware.py` -/

/-- Configuration of `OffensiveLanguageMiddleware`
(`CHAT_RATE_LIMIT_MAX_MESSAGES`, `CHAT_RATE_LIMIT_WINDOW_SECONDS`,
`CHAT_RATE_LIMIT_PATHS`). -/
structure RateCfg where
  max_messages : Nat
  window_seconds : Int
  target_paths : List String
deriving Repr

/-- The defaults hard-coded in `OffensiveLanguageMiddleware.__init__`. -/
def defaultRateCfg : RateCfg :=
  { max_messages := 5, window_seconds := 60, target_paths := ["/api/messages"] }

/-- `self._requests`: map from client IP to the deque of request
timestamps, oldest first (deque front = list head).  An IP without an
entry maps to the empty list, which also absorbs the source's
`self._requests.pop(ip, None)` cleanup of empty deques. -/
def RLState : Type := String → List Int

/-- The empty `self._requests` dictionary a fresh middleware starts with. -/
def initRLState : RLState := fun _ => []

/-- Point update of the `self._requests` dictionary. -/
def updFn (st : RLState) (ip : String) (dq : List Int) : RLState :=
  fun x => if x = ip then dq else st x

/-- `OffensiveLanguageMiddleware._is_target_path`: some configured path is
non-empty and occurs in the request path. -/
def isTargetPath (cfg : RateCfg) (path : String) : Bool :=
  cfg.target_paths.any (fun p => !(p == "") && containsSub path p)

/-- `OffensiveLanguageMiddleware._get_client_ip`: first non-blank entry of
`X-Forwarded-For` if that header is a non-empty string, else
`REMOTE_ADDR`, else `"unknown"`. -/
def getClientIp (req : HttpRequest) : String :=
  match req.meta_xff with
  | some xff =>
      if xff == "" then req.meta_remote_addr.getD "unknown"
      else
        match ((splitOnChar ',' xff.toList).map pyStrip).filter (fun p => !p.isEmpty) with
        | p :: _ => ⟨p⟩
        | [] => req.meta_remote_addr.getD "unknown"
  | none => req.meta_remote_addr.getD "unknown"

/-- The body of the `try:` block of `OffensiveLanguageMiddleware.__call__`,
in the `Except` monad: `request.method` being `None` makes
`request.method.upper()` raise `AttributeError`, which the surrounding
`except Exception` swallows.  The result is `(some 429, st)` when the
middleware answers `429` itself (the downstream handler is not invoked)
and `(none, st)` when the request is forwarded to `self.get_response`. -/
def rateLimitBody (cfg : RateCfg) (st : RLState) (req : HttpRequest) (now : Int) :
    Except String (Option Nat × RLState) :=
  match req.method with
  | none => .error "AttributeError: NoneType object has no attribute upper"
  | some m =>
    if pyUpper m == "POST" && isTargetPath cfg req.path then
      let ip := getClientIp req
      let cutoff : Int := now - cfg.window_seconds
      let dq := (st ip).dropWhile (fun t => decide (t < cutoff))
      if cfg.max_messages ≤ dq.length then
        .ok (some 429, updFn st ip dq)
      else
        .ok (none, updFn st ip (dq ++ [now]))
    else
      .ok (none, st)

/-- `OffensiveLanguageMiddleware.__call__`: run the rate-limit logic and
swallow any exception ("Never break application due to middleware
failure; log and proceed"). -/
def offensiveCall (cfg : RateCfg) (st : RLState) (req : HttpRequest) (now : Int) :
    Option Nat × RLState :=
  match rateLimitBody cfg st req now with
  | .ok r => r
  | .error _ => (none, st)

/-- The code's condition for a request to take part in rate limiting:
`request.method.upper() == "POST"` and the path matches a target path. -/
def isCountedRequest (cfg : RateCfg) (req : HttpRequest) : Bool :=
  (match req.method with
   | some m => pyUpper m == "POST"
   | none => false) && isTargetPath cfg req.path

/-- Run the middleware over a sequence of requests paired with the clock
reading (`timezone.now().timestamp()`) at which each arrives. -/
def processAll (cfg : RateCfg) (st : RLState) : List (HttpRequest × Int) → RLState
  | [] => st
  | (req, now) :: rest => processAll cfg (offensiveCall cfg st req now).2 rest

/-- Number of recorded timestamps for a deque that are no older than the
window at clock reading `now`, i.e. satisfy `now - t ≤ w`. -/
def recentCount (w : Int) (now : Int) (dq : List Int) : Nat :=
  dq.countP (fun t => decide (now - w ≤ t))

/-! ## RestrictAccessByTimeMiddleware, from
`Django-Middleware-0x03/chats/middleware.py` -/

/-- Configuration of `RestrictAccessByTimeMiddleware`: `self.open_time`
and `self.close_time` as seconds since midnight, and
`self.restricted_paths`. -/
structure TimeCfg where
  open_time : Nat
  close_time : Nat
  restricted_paths : List String
deriving Repr

/-- The defaults of `RestrictAccessByTimeMiddleware.__init__`
(06:00 .. 21:00, `/api/messages` and `/api/conversations`). -/
def defaultTimeCfg : TimeCfg :=
  { open_time := 6 * 3600, close_time := 21 * 3600,
    restricted_paths := ["/api/messages", "/api/conversations"] }

/-- `RestrictAccessByTimeMiddleware._is_path_restricted`. -/
def isPathRestricted (cfg : TimeCfg) (path : String) : Bool :=
  cfg.restricted_paths.any (fun p => !(p == "") && containsSub path p)

/-- `RestrictAccessByTimeMiddleware._is_within_allowed_hours`, over a
time-of-day in seconds since midnight. -/
def isWithinAllowedHours (cfg : TimeCfg) (now : Nat) : Bool :=
  if cfg.open_time < cfg.close_time then
    cfg.open_time ≤ now && now < cfg.close_time
  else
    now ≥ cfg.open_time || now < cfg.close_time

/-- `RestrictAccessByTimeMiddleware.__call__`: `some 403` means the
middleware answers the `JsonResponse(..., status=403)` itself; `none`
means the request is forwarded to `self.get_response`. -/
def restrictCall (cfg : TimeCfg) (req : HttpRequest) (now : Nat) : Option Nat :=
  if isPathRestricted cfg req.path then
    if isWithinAllowedHours cfg now then none else some 403
  else none

/-! ## Messaging signal handlers, from
`Django-signals_orm-0x04/messaging/signals.py` -/

/-- A `Notification` row as the handlers create and delete it (the model
class itself lives outside `src/`; its fields here are the ones the
handlers write: recipient `user`, referenced `message`, `verb`). -/
structure NotifRow where
  pk : Nat
  user_id : Nat
  message_id : Nat
  verb : String
deriving Repr, DecidableEq

/-- Python `sender.get_full_name() or sender.username` (empty string is
falsy). -/
def displayName (fullName username : String) : String :=
  if fullName == "" then username else fullName

/-- `create_notification_on_new_message` (post_save on `Message`): on a
newly created message whose sender differs from its receiver, schedule
the creation of one `Notification` for the receiver on transaction
commit.  `db` is the committed notification table; the result is that
table after the commit callbacks run. -/
def createNotificationOnNewMessage (created : Bool) (senderId receiverId msgPk : Nat)
    (senderFullName senderUsername : String) (notifPk : Nat) (db : List NotifRow) :
    List NotifRow :=
  if !created then db
  else if senderId == receiverId then db
  else
    db ++ [{ pk := notifPk, user_id := receiverId, message_id := msgPk,
             verb := displayName senderFullName senderUsername ++ " sent you a message" }]

/-- A stored `Message` row, restricted to the fields
`log_message_edit_history` reads and writes. -/
structure StoredMessage where
  pk : Nat
  content : String
  edited : Bool
  last_edited_at : Option Int
  last_edited_by : Option Nat
deriving Repr, DecidableEq

/-- The in-memory `Message` instance passed to the `pre_save` handler.
`pk` is `none` for an unsaved message; `editorAttr` is the transient
`_editor` attribute a view may have attached. -/
structure MessageInstance where
  pk : Option Nat
  content : String
  edited : Bool
  last_edited_at : Option Int
  last_edited_by : Option Nat
  editorAttr : Option Nat
deriving Repr, DecidableEq

/-- A `MessageHistory` row as the handler creates it (`message_id`,
`old_content`, `edited_at`, `editor`). -/
structure HistoryRow where
  message_id : Nat
  old_content : String
  edited_at : Int
  editor : Option Nat
deriving Repr, DecidableEq

/-- `Message.objects.get(pk=k)` over the message table, `none` for
`Message.DoesNotExist`. -/
def getByPk (msgs : List StoredMessage) (k : Nat) : Option StoredMessage :=
  msgs.find? (fun m => m.pk == k)

/-- Python truthiness of `instance.pk` (`if not instance.pk`): `None` and
`0` are falsy. -/
def pkTruthy : Option Nat → Bool
  | none => false
  | some k => !(k == 0)

/-- `getattr(instance, "_editor", None) or instance.last_edited_by`. -/
def resolveEditor (inst : MessageInstance) : Option Nat :=
  match inst.editorAttr with
  | some e => some e
  | none => inst.last_edited_by

/-- `log_message_edit_history` (pre_save on `Message`): for an existing
message whose content is changing, append a `MessageHistory` row with
the prior content and mark the instance as edited.  Returns the history
table and the (possibly updated) instance that will then be saved. -/
def logMessageEditHistory (msgs : List StoredMessage) (hists : List HistoryRow)
    (inst : MessageInstance) (now : Int) : List HistoryRow × MessageInstance :=
  if !(pkTruthy inst.pk) then (hists, inst)
  else
    match inst.pk with
    | none => (hists, inst)
    | some k =>
      match getByPk msgs k with
      | none => (hists, inst)
      | some previous =>
        if previous.content == inst.content then (hists, inst)
        else
          let editor := resolveEditor inst
          let hists := hists ++
            [{ message_id := previous.pk, old_content := previous.content,
               edited_at := now, editor := editor }]
          let inst :=
            { inst with
              edited := true
              last_edited_at := some now
              last_edited_by :=
                match editor with
                | some e => some e
                | none => inst.last_edited_by }
          (hists, inst)

/-- A `Message` row as `cleanup_user_related_data` sees the table. -/
structure MsgRow where
  pk : Nat
  sender_id : Nat
  receiver_id : Nat
deriving Repr, DecidableEq

/-- A `MessageHistory` row with its message reference and nullable editor
reference, as `cleanup_user_related_data` touches it. -/
structure HistRow where
  pk : Nat
  message_id : Nat
  old_content : String
  edited_at : Int
  editor_id : Option Nat
deriving Repr, DecidableEq

/-- The messaging tables `cleanup_user_related_data` operates on. -/
structure MessagingDB where
  messages : List MsgRow
  notifications : List NotifRow
  histories : List HistRow
deriving Repr, DecidableEq

/-- `Message.objects.filter(...).delete()` with Django's FK cascade:
deleting the messages matching `p` also deletes the `MessageHistory`
rows referencing them (the handler's own comment: "These will
cascade-delete MessageHistory records that reference the Message") and
the `Notification` rows referencing them (`Notification.message` is a
cascading FK like every other message FK in the app). -/
def deleteMessagesWhere (p : MsgRow → Bool) (db : MessagingDB) : MessagingDB :=
  let doomed := (db.messages.filter p).map (fun m => m.pk)
  { messages := db.messages.filter (fun m => !(p m))
    notifications := db.notifications.filter (fun n => !(doomed.contains n.message_id))
    histories := db.histories.filter (fun h => !(doomed.contains h.message_id)) }

/-- `cleanup_user_related_data` (post_delete on `User`), as observed once
its `transaction.on_commit` callback has run: delete the user's
notifications, delete the messages the user sent and then the ones the
user received (each with FK cascade), and null out the editor reference
of the remaining histories the user edited. -/
def cleanupUserRelatedData (uid : Nat) (db : MessagingDB) : MessagingDB :=
  let db := { db with notifications := db.notifications.filter (fun n => !(n.user_id == uid)) }
  let db := deleteMessagesWhere (fun m => m.sender_id == uid) db
  let db := deleteMessagesWhere (fun m => m.receiver_id == uid) db
  { db with histories := db.histories.map (fun h =>
      if h.editor_id == some uid then { h with editor_id := none } else h) }

/-! ## `Message.save`, from `Django-signals_orm-0x04/messaging/models.py` -/

/-- The `parent_message` object as `Message.save` reads it: its primary
key and its `thread_root` reference. -/
structure ParentRef where
  pk : Nat
  threadRoot : Option Nat
deriving Repr, DecidableEq

/-- The saved `Message` instance, restricted to the fields `Message.save`
reads and writes.  `threadRoot` holds the primary key of the referenced
root message. -/
structure MsgObj where
  pk : Option Nat
  parent : Option ParentRef
  threadRoot : Option Nat
deriving Repr, DecidableEq

/-- `Message.save`: for a reply, `thread_root = parent.thread_root or
parent`; `super().save()` assigns `nextPk` to a new row; afterwards a
top-level message with no `thread_root` gets `thread_root = self` by a
second save. -/
def msgSave (nextPk : Nat) (m : MsgObj) : MsgObj :=
  let m1 :=
    match m.parent with
    | some parent => { m with threadRoot := some (parent.threadRoot.getD parent.pk) }
    | none => m
  let m2 := { m1 with pk := some (m1.pk.getD nextPk) }
  match m2.parent with
  | some _ => m2
  | none =>
    match m2.threadRoot with
    | none => { m2 with threadRoot := m2.pk }
    | some _ => m2

/-! ## Lazy pagination, from `python-generators-0x00/2-lazy_paginate.py` -/

/-- `paginate_users(page_size, offset)`:
`SELECT * FROM user_data LIMIT page_size OFFSET offset` over the table
contents `rows`. -/
def paginateUsers {α : Type} (rows : List α) (page_size offset : Nat) : List α :=
  (rows.drop offset).take page_size

/-- The `while True` loop of `lazy_paginate`, started at `offset`:
fetch a page, stop on the first empty one, otherwise yield it and
advance the offset by `page_size`. -/
def lazyAux {α : Type} (rows : List α) (page_size : Nat) (offset : Nat) :
    List (List α) :=
  if h : (paginateUsers rows page_size offset).isEmpty = true then []
  else
    paginateUsers rows page_size offset :: lazyAux rows page_size (offset + page_size)
termination_by rows.length - offset
decreasing_by
  have hne : paginateUsers rows page_size offset ≠ [] := by
    intro he
    exact h (by simp [he])
  have hlt : offset < rows.length := by
    by_contra hge
    exact hne (by simp [paginateUsers, List.drop_eq_nil_of_le (Nat.le_of_not_lt hge)])
  have hps : 0 < page_size := by
    rcases Nat.eq_zero_or_pos page_size with h0 | h0
    · exact absurd (by simp [paginateUsers, h0]) hne
    · exact h0
  exact Nat.sub_lt_sub_left hlt (Nat.lt_add_of_pos_right hps)

/-- `lazy_paginate(page_size)`: the sequence of pages the generator
yields. -/
def lazyPaginate {α : Type} (rows : List α) (page_size : Nat) : List (List α) :=
  lazyAux rows page_size 0

/-! ## Role-permission middleware -/

/-- The request data a role-permission middleware inspects. -/
structure RoleRequest where
  path : String
  role : String
deriving Repr, DecidableEq

/-- Configuration of the role-permission middleware: which paths are
protected and which roles may pass. -/
structure RoleCfg where
  protected_paths : List String
  allowed_roles : List String
deriving Repr

/-- Modelled from the spec: the spec lists "role permission checks" among
the repository's Django HTTP middleware, but no such middleware class is
under `src/` (`src/Django-Middleware-0x03/chats/middleware.py` defines
only the logging, time-restriction and rate-limit middleware; only the
`role` field of the user model is present).  Following the spec's words:
for a request to a protected endpoint, reject (`some 403`) when the
requesting user lacks the required role, forward (`none`) when the user
has it; other endpoints are not affected. -/
def rolePermissionCall (cfg : RoleCfg) (req : RoleRequest) : Option Nat :=
  if cfg.protected_paths.any (fun p => !(p == "") && containsSub req.path p) then
    if cfg.allowed_roles.contains req.role then none else some 403
  else none

/-! ## Concrete fixtures used by witnesses and counterexamples -/

/-- A POST to the default rate-limited endpoint from IP `1.2.3.4`. -/
def cPostReq : HttpRequest :=
  { method := some "POST", path := "/api/messages", meta_xff := none,
    meta_remote_addr := some "1.2.3.4" }

/-- The same request with `request.method = None` (its `.upper()` raises). -/
def cNoMethodReq : HttpRequest :=
  { cPostReq with method := none }

/-- A GET to the rate-limited endpoint. -/
def cGetReq : HttpRequest :=
  { cPostReq with method := some "GET" }

/-- A messaging database in which user 1 sent message 10 and also edited
it (history 100 references message 10). -/
def cDbCascade : MessagingDB :=
  { messages := [{ pk := 10, sender_id := 1, receiver_id := 2 }]
    notifications := []
    histories := [{ pk := 100, message_id := 10, old_content := "old",
                    edited_at := 0, editor_id := some 1 }] }

/-- A messaging database in which user 1 edited message 11, a message
exchanged between users 2 and 3, and has one notification. -/
def cDbSurvive : MessagingDB :=
  { messages := [{ pk := 11, sender_id := 2, receiver_id := 3 }]
    notifications := [{ pk := 7, user_id := 1, message_id := 11, verb := "v" }]
    histories := [{ pk := 101, message_id := 11, old_content := "o",
                    edited_at := 0, editor_id := some 1 }] }

/-- A top-level message that already carries a foreign `thread_root`. -/
def cMsgForeignRoot : MsgObj :=
  { pk := some 1, parent := none, threadRoot := some 42 }

/-! ## Helper lemmas -/

/-- In a `≤`-sorted deque, every entry surviving the trimming loop
(`while dq and dq[0] < cutoff: dq.popleft()`) is at least the cutoff. -/
theorem sorted_dropWhile_ge {l : List Int} {c : Int} (hs : l.Sorted (· ≤ ·)) :
    ∀ t ∈ l.dropWhile (fun t => decide (t < c)), c ≤ t := by
  induction l with
  | nil => simp
  | cons a l ih =>
    intro t ht
    by_cases ha : a < c
    · rw [show (a :: l).dropWhile (fun t => decide (t < c)) =
          l.dropWhile (fun t => decide (t < c)) by simp [List.dropWhile_cons, ha]] at ht
      exact ih hs.of_cons t ht
    · rw [show (a :: l).dropWhile (fun t => decide (t < c)) = a :: l by
          simp [List.dropWhile_cons, ha]] at ht
      rcases List.mem_cons.mp ht with rfl | hmem
      · exact Int.not_lt.mp ha
      · exact le_trans (Int.not_lt.mp ha) ((List.sorted_cons.mp hs).1 t hmem)

/-- On a `≤`-sorted deque, the trimming loop removes exactly the entries
older than the cutoff. -/
theorem sorted_dropWhile_eq_filter {l : List Int} {c : Int} (hs : l.Sorted (· ≤ ·)) :
    l.dropWhile (fun t => decide (t < c)) = l.filter (fun t => decide (c ≤ t)) := by
  induction l with
  | nil => simp
  | cons a l ih =>
    by_cases ha : a < c
    · have hna : ¬ c ≤ a := by omega
      simp [List.dropWhile_cons, List.filter_cons, ha, hna, ih hs.of_cons]
    · have hca : c ≤ a := Int.not_lt.mp ha
      have hfl : l.filter (fun t => decide (c ≤ t)) = l :=
        List.filter_eq_self.mpr (fun b hb =>
          decide_eq_true (le_trans hca ((List.sorted_cons.mp hs).1 b hb)))
      simp [List.dropWhile_cons, List.filter_cons, ha, hca, hfl]

/-- On a `≤`-sorted deque, the number of entries no older than the window
equals the length of the trimmed deque the code counts. -/
theorem recentCount_eq_trimmed (w now : Int) {l : List Int} (hs : l.Sorted (· ≤ ·)) :
    recentCount w now l = (l.dropWhile (fun t => decide (t < now - w))).length := by
  rw [sorted_dropWhile_eq_filter hs, recentCount, List.countP_eq_length_filter]

/-! ## C6: time-of-day access restriction -/

/-- C6: for a request whose path contains a restricted path,
`RestrictAccessByTimeMiddleware` answers 403 exactly when the current
local time is outside the allowed window and forwards the request
otherwise, where the window is `open ≤ now < close` when `open < close`
and `now ≥ open ∨ now < close` otherwise; requests to non-restricted
paths are always forwarded. -/
theorem restrict_access_by_time (cfg : TimeCfg) (req : HttpRequest) (now : Nat) :
    (isPathRestricted cfg req.path = true →
      ((isWithinAllowedHours cfg now = true → restrictCall cfg req now = none)
        ∧ (isWithinAllowedHours cfg now = false → restrictCall cfg req now = some 403)))
    ∧ (isPathRestricted cfg req.path = false → restrictCall cfg req now = none)
    ∧ (isWithinAllowedHours cfg now = true ↔
        (if cfg.open_time < cfg.close_time
          then cfg.open_time ≤ now ∧ now < cfg.close_time
          else cfg.open_time ≤ now ∨ now < cfg.close_time)) := by
  refine ⟨fun hr => ⟨fun hw => ?_, fun hw => ?_⟩, fun hr => ?_, ?_⟩
  · simp [restrictCall, hr, hw]
  · simp [restrictCall, hr, hw]
  · simp [restrictCall, hr]
  · by_cases hoc : cfg.open_time < cfg.close_time
    · simp [isWithinAllowedHours, hoc]
    · simp [isWithinAllowedHours, hoc]

/-- Witness for C6: at noon the default configuration forwards a request
to `/api/messages`, and at 05:00 it would be within neither bound. -/
theorem restrict_access_by_time_witness :
    restrictCall defaultTimeCfg cPostReq (12 * 3600) = none :=
  ((restrict_access_by_time defaultTimeCfg cPostReq (12 * 3600)).1 (by decide)).1 (by decide)

/-! ## C7: role permission middleware (modelled from the spec) -/

/-- C7: the role-permission middleware rejects a request to a protected
endpoint exactly when the requesting user's role is not among the
allowed roles, and forwards it when it is. -/
theorem role_permission_check (cfg : RoleCfg) (req : RoleRequest)
    (hp : cfg.protected_paths.any (fun p => !(p == "") && containsSub req.path p) = true) :
    (cfg.allowed_roles.contains req.role = false → rolePermissionCall cfg req = some 403)
    ∧ (cfg.allowed_roles.contains req.role = true → rolePermissionCall cfg req = none) := by
  constructor
  · intro hr
    simp only [rolePermissionCall, hp, hr]
    simp
  · intro hr
    simp only [rolePermissionCall, hp, hr]
    simp

/-- Witness for C7: an admin-only endpoint blocks a guest and admits an
admin. -/
theorem role_permission_check_witness :
    rolePermissionCall { protected_paths := ["/api/admin"], allowed_roles := ["admin"] }
      { path := "/api/admin/users", role := "guest" } = some 403 :=
  (role_permission_check
      { protected_paths := ["/api/admin"], allowed_roles := ["admin"] }
      { path := "/api/admin/users", role := "guest" } (by decide)).1 (by decide)

/-! ## C3: notification fan-out on new messages -/

/-- C3: when a `Message` is newly created with sender different from
receiver, exactly one `Notification` addressed to the receiver and
referencing the message is appended to the committed notification table;
an update (`created = false`) or a self-message creates none. -/
theorem notification_on_new_message (created : Bool) (sid rid mpk : Nat)
    (fn un : String) (npk : Nat) (db : List NotifRow) :
    (created = true → sid ≠ rid →
      createNotificationOnNewMessage created sid rid mpk fn un npk db =
        db ++ [{ pk := npk, user_id := rid, message_id := mpk,
                 verb := displayName fn un ++ " sent you a message" }])
    ∧ (created = false →
      createNotificationOnNewMessage created sid rid mpk fn un npk db = db)
    ∧ (sid = rid →
      createNotificationOnNewMessage created sid rid mpk fn un npk db = db) := by
  refine ⟨fun hc hne => ?_, fun hc => ?_, fun he => ?_⟩
  · simp [createNotificationOnNewMessage, hc, hne]
  · simp [createNotificationOnNewMessage, hc]
  · cases created <;> simp [createNotificationOnNewMessage, he]

/-- Witness for C3: creating message 3 from user 1 to user 2 appends
exactly one notification for user 2 referencing message 3. -/
theorem notification_on_new_message_witness :
    createNotificationOnNewMessage true 1 2 3 "" "alice" 8 [] =
      [{ pk := 8, user_id := 2, message_id := 3, verb := "alice sent you a message" }] :=
  (notification_on_new_message true 1 2 3 "" "alice" 8 []).1 rfl (by decide)

/-! ## C4: message edit-history logging -/

/-- C4: when an existing message (positive primary key present in the
database) is saved with changed content, `log_message_edit_history`
appends exactly one `MessageHistory` row holding the prior content and
marks the instance edited with `last_edited_at` set; a new message
(`pk = None`) or an unchanged content leaves both the history table and
the edit-tracking fields untouched. -/
theorem message_edit_history (msgs : List StoredMessage) (hists : List HistoryRow)
    (inst : MessageInstance) (now : Int) :
    (∀ k prev, inst.pk = some k → k ≠ 0 → getByPk msgs k = some prev →
      prev.content ≠ inst.content →
      logMessageEditHistory msgs hists inst now =
        (hists ++ [{ message_id := prev.pk, old_content := prev.content,
                     edited_at := now, editor := resolveEditor inst }],
         { inst with
           edited := true
           last_edited_at := some now
           last_edited_by :=
             match resolveEditor inst with
             | some e => some e
             | none => inst.last_edited_by }))
    ∧ (inst.pk = none → logMessageEditHistory msgs hists inst now = (hists, inst))
    ∧ (∀ k prev, inst.pk = some k → getByPk msgs k = some prev →
      prev.content = inst.content →
      logMessageEditHistory msgs hists inst now = (hists, inst)) := by
  refine ⟨fun k prev hpk hk0 hget hne => ?_, fun hpk => ?_, fun k prev hpk hget heq => ?_⟩
  · have hbne : (prev.content == inst.content) = false := by
      simpa using hne
    simp [logMessageEditHistory, hpk, pkTruthy, hk0, hget, hbne]
  · simp [logMessageEditHistory, hpk, pkTruthy]
  · by_cases hk0 : k = 0
    · simp [logMessageEditHistory, hpk, pkTruthy, hk0]
    · have hbeq : (prev.content == inst.content) = true := by
        simpa using heq
      simp [logMessageEditHistory, hpk, pkTruthy, hk0, hget, hbeq]

/-- Witness for C4: editing stored message 5 from "original" to "edited"
by user 9 logs one history row and marks the instance edited. -/
theorem message_edit_history_witness :
    logMessageEditHistory
        [{ pk := 5, content := "original", edited := false,
           last_edited_at := none, last_edited_by := none }] []
        { pk := some 5, content := "edited", edited := false,
          last_edited_at := none, last_edited_by := none, editorAttr := some 9 } 100 =
      ([{ message_id := 5, old_content := "original", edited_at := 100, editor := some 9 }],
       { pk := some 5, content := "edited", edited := true,
         last_edited_at := some 100, last_edited_by := some 9, editorAttr := some 9 }) :=
  (message_edit_history
      [{ pk := 5, content := "original", edited := false,
         last_edited_at := none, last_edited_by := none }] []
      { pk := some 5, content := "edited", edited := false,
        last_edited_at := none, last_edited_by := none, editorAttr := some 9 } 100).1
    5 { pk := 5, content := "original", edited := false,
        last_edited_at := none, last_edited_by := none }
    rfl (by decide) (by decide) (by decide)

/-! ## C10: thread-root maintenance in `Message.save` -/

/-- Counterexample to C10 as stated: a message saved without a
`parent_message` but with a `thread_root` already set keeps that
`thread_root` (the second save runs only when `thread_root is None`), so
it does not end up with `thread_root` equal to itself. -/
theorem msgSave_self_root_fails :
    ¬ ((msgSave 99 cMsgForeignRoot).threadRoot = (msgSave 99 cMsgForeignRoot).pk) := by
  decide

/-- C10 (amended): after `Message.save`, `thread_root` is always
non-null; a message with a `parent_message` gets the parent's
`thread_root` when set and otherwise the parent itself; a message
without a parent and with `thread_root` unset gets `thread_root` equal
to itself via the second save; a message without a parent whose
`thread_root` is already set keeps it. -/
theorem msgSave_thread_root (nextPk : Nat) (m : MsgObj) :
    (msgSave nextPk m).threadRoot ≠ none
    ∧ (∀ p, m.parent = some p →
        (msgSave nextPk m).threadRoot = some (p.threadRoot.getD p.pk))
    ∧ (m.parent = none → m.threadRoot = none →
        (msgSave nextPk m).threadRoot = (msgSave nextPk m).pk
          ∧ (msgSave nextPk m).pk = some (m.pk.getD nextPk))
    ∧ (∀ t, m.parent = none → m.threadRoot = some t →
        (msgSave nextPk m).threadRoot = some t) := by
  refine ⟨?_, fun p hp => ?_, fun hp ht => ?_, fun t hp ht => ?_⟩
  · rcases hpar : m.parent with _ | p
    · rcases hroot : m.threadRoot with _ | t
      · simp [msgSave, hpar, hroot]
      · simp [msgSave, hpar, hroot]
    · simp [msgSave, hpar]
  · simp [msgSave, hp]
  · simp [msgSave, hp, ht]
  · simp [msgSave, hp, ht]

/-- Witness for C10 (amended): a fresh reply to root message 3 inherits
thread root 3, and a fresh top-level message becomes its own root. -/
theorem msgSave_thread_root_witness :
    (msgSave 7 { pk := none, parent := some { pk := 3, threadRoot := none },
                 threadRoot := none }).threadRoot = some 3 :=
  (msgSave_thread_root 7
      { pk := none, parent := some { pk := 3, threadRoot := none }, threadRoot := none }).2.1
    { pk := 3, threadRoot := none } rfl

/-! ## C9: the rate limiter fails open -/

/-- C9: if the rate-limit logic of `OffensiveLanguageMiddleware.__call__`
raises, the exception is swallowed: the request is forwarded to the
downstream handler with the request store untouched, and a `429` can
only ever come from a successful run of the rate-limit logic. -/
theorem offensive_fail_open (cfg : RateCfg) (st : RLState) (req : HttpRequest) (now : Int) :
    (∀ e, rateLimitBody cfg st req now = .error e →
      offensiveCall cfg st req now = (none, st))
    ∧ ((offensiveCall cfg st req now).1 ≠ none →
      rateLimitBody cfg st req now =
        .ok ((offensiveCall cfg st req now).1, (offensiveCall cfg st req now).2)) := by
  constructor
  · intro e he
    simp [offensiveCall, he]
  · intro hne
    rcases hbody : rateLimitBody cfg st req now with v | v
    · exact absurd (by simp [offensiveCall, hbody]) hne
    · simp [offensiveCall, hbody]

/-- Witness for C9: a request with `method = None` makes the body raise
`AttributeError`, and the middleware still forwards it unthrottled. -/
theorem offensive_fail_open_witness :
    offensiveCall defaultRateCfg initRLState cNoMethodReq 0 = (none, initRLState) :=
  (offensive_fail_open defaultRateCfg initRLState cNoMethodReq 0).1
    "AttributeError: NoneType object has no attribute upper" rfl

/-! ## C1: per-IP sliding-window rate limiting -/

/-- C1: for a POST to a configured target path, when the requesting IP
already has `max_messages` recorded timestamps no older than
`window_seconds`, the middleware answers 429 itself (keeping only the
trimmed deque) and the downstream handler is not invoked; otherwise it
appends the request's timestamp for that IP and forwards the request.
Requests that are not POSTs to a target path are always forwarded with
the store untouched.  The deque is `≤`-sorted in every reachable state
(see the window-invariant theorem), which the counting hypothesis uses. -/
theorem offensive_rate_limit (cfg : RateCfg) (st : RLState) (req : HttpRequest) (now : Int)
    (hsort : (st (getClientIp req)).Sorted (· ≤ ·)) :
    (isCountedRequest cfg req = true →
      (cfg.max_messages ≤ recentCount cfg.window_seconds now (st (getClientIp req)) →
        offensiveCall cfg st req now =
          (some 429, updFn st (getClientIp req)
            ((st (getClientIp req)).dropWhile (fun t => decide (t < now - cfg.window_seconds)))))
      ∧ (recentCount cfg.window_seconds now (st (getClientIp req)) < cfg.max_messages →
        offensiveCall cfg st req now =
          (none, updFn st (getClientIp req)
            ((st (getClientIp req)).dropWhile (fun t => decide (t < now - cfg.window_seconds))
              ++ [now]))))
    ∧ (isCountedRequest cfg req = false → offensiveCall cfg st req now = (none, st)) := by
  have hrc := recentCount_eq_trimmed cfg.window_seconds now hsort
  rcases hm : req.method with _ | m
  · refine ⟨fun hc => ?_, fun _ => ?_⟩
    · simp [isCountedRequest, hm] at hc
    · simp [offensiveCall, rateLimitBody, hm]
  · have hic : isCountedRequest cfg req = (pyUpper m == "POST" && isTargetPath cfg req.path) := by
      simp [isCountedRequest, hm]
    rcases hpost : (pyUpper m == "POST" && isTargetPath cfg req.path) with _ | _
    · refine ⟨fun hc => ?_, fun _ => ?_⟩
      · rw [hic, hpost] at hc
        exact absurd hc (by simp)
      · simp [offensiveCall, rateLimitBody, hm, hpost]
    · refine ⟨fun _ => ⟨fun hge => ?_, fun hlt => ?_⟩, fun hc => ?_⟩
      · rw [hrc] at hge
        simp [offensiveCall, rateLimitBody, hm, hpost, hge]
      · rw [hrc] at hlt
        have hnge : ¬ cfg.max_messages ≤
            ((st (getClientIp req)).dropWhile
              (fun t => decide (t < now - cfg.window_seconds))).length := by omega
        simp [offensiveCall, rateLimitBody, hm, hpost, hnge]
      · rw [hic, hpost] at hc
        exact absurd hc (by simp)

/-- Witness for C1: with an empty store, a POST to `/api/messages` from
`1.2.3.4` is forwarded and its timestamp recorded. -/
theorem offensive_rate_limit_witness :
    offensiveCall defaultRateCfg initRLState cPostReq 0 =
      (none, updFn initRLState (getClientIp cPostReq)
        (([] : List Int).dropWhile (fun t => decide (t < 0 - defaultRateCfg.window_seconds))
          ++ [0])) :=
  ((offensive_rate_limit defaultRateCfg initRLState cPostReq 0 (by simp [initRLState])).1
    (by decide)).2 (by decide)

/-! ## C2: the sliding-window invariant -/

/-- One middleware step preserves the per-IP window invariant: deques stay
bounded by `max_messages`, `≤`-sorted, and bounded above by the current
clock reading, provided the clock did not go backwards. -/
theorem offensive_step_inv (cfg : RateCfg) (st : RLState) (req : HttpRequest)
    (now b : Int) (hb : b ≤ now)
    (hlen : ∀ ip, (st ip).length ≤ cfg.max_messages)
    (hsort : ∀ ip, (st ip).Sorted (· ≤ ·))
    (hub : ∀ ip, ∀ t ∈ st ip, t ≤ b) :
    (∀ ip, ((offensiveCall cfg st req now).2 ip).length ≤ cfg.max_messages)
    ∧ (∀ ip, ((offensiveCall cfg st req now).2 ip).Sorted (· ≤ ·))
    ∧ (∀ ip, ∀ t ∈ (offensiveCall cfg st req now).2 ip, t ≤ now) := by
  have hkeep :
      (∀ ip, (st ip).length ≤ cfg.max_messages)
      ∧ (∀ ip, (st ip).Sorted (· ≤ ·))
      ∧ (∀ ip, ∀ t ∈ st ip, t ≤ now) :=
    ⟨hlen, hsort, fun ip t ht => le_trans (hub ip t ht) hb⟩
  rcases hm : req.method with _ | m
  · simpa [offensiveCall, rateLimitBody, hm] using hkeep
  · rcases hpost : (pyUpper m == "POST" && isTargetPath cfg req.path) with _ | _
    · simpa [offensiveCall, rateLimitBody, hm, hpost] using hkeep
    · set ip0 := getClientIp req with hip0
      set trimmed := (st ip0).dropWhile (fun t => decide (t < now - cfg.window_seconds))
        with htr
      have htsub : List.Sublist trimmed (st ip0) :=
        (List.dropWhile_suffix (l := st ip0)
          (p := fun t => decide (t < now - cfg.window_seconds))).sublist
      have htlen : trimmed.length ≤ (st ip0).length := htsub.length_le
      have htsort : trimmed.Sorted (· ≤ ·) := (hsort ip0).sublist htsub
      have htub : ∀ t ∈ trimmed, t ≤ now :=
        fun t ht => le_trans (hub ip0 t (htsub.subset ht)) hb
      by_cases hmax : cfg.max_messages ≤ trimmed.length
      · have hres : (offensiveCall cfg st req now).2 = updFn st ip0 trimmed := by
          simp [offensiveCall, rateLimitBody, hm, hpost, ← htr, ← hip0, hmax]
        rw [hres]
        refine ⟨fun ip => ?_, fun ip => ?_, fun ip t ht => ?_⟩
        · by_cases hip : ip = ip0
          · simpa [updFn, hip] using le_trans htlen (hlen ip0)
          · simpa [updFn, hip] using hlen ip
        · by_cases hip : ip = ip0
          · simpa [updFn, hip] using htsort
          · simpa [updFn, hip] using hsort ip
        · by_cases hip : ip = ip0
          · simp only [updFn, hip, if_pos] at ht
            exact htub t ht
          · simp only [updFn, if_neg hip] at ht
            exact le_trans (hub ip t ht) hb
      · have hres : (offensiveCall cfg st req now).2 = updFn st ip0 (trimmed ++ [now]) := by
          simp [offensiveCall, rateLimitBody, hm, hpost, ← htr, ← hip0, hmax]
        rw [hres]
        refine ⟨fun ip => ?_, fun ip => ?_, fun ip t ht => ?_⟩
        · by_cases hip : ip = ip0
          · have hl : (updFn st ip0 (trimmed ++ [now]) ip).length = trimmed.length + 1 := by
              simp [updFn, hip]
            rw [hl]
            omega
          · simpa [updFn, hip] using hlen ip
        · by_cases hip : ip = ip0
          · have he : updFn st ip0 (trimmed ++ [now]) ip = trimmed ++ [now] := by
              simp [updFn, hip]
            rw [he]
            refine List.pairwise_append.mpr ⟨htsort, List.sorted_singleton now, ?_⟩
            intro a ha b2 hb2
            rw [List.mem_singleton] at hb2
            exact hb2 ▸ htub a ha
          · simpa [updFn, hip] using hsort ip
        · by_cases hip : ip = ip0
          · simp only [updFn, hip, if_pos, List.mem_append, List.mem_singleton] at ht
            rcases ht with ht | ht
            · exact htub t ht
            · exact le_of_eq ht
          · simp only [updFn, if_neg hip] at ht
            exact le_trans (hub ip t ht) hb

/-- The window invariant is preserved across any run of the middleware
whose clock readings do not decrease. -/
theorem processAll_inv (cfg : RateCfg) :
    ∀ (reqs : List (HttpRequest × Int)) (st : RLState) (b : Int),
    (∀ ip, (st ip).length ≤ cfg.max_messages) →
    (∀ ip, (st ip).Sorted (· ≤ ·)) →
    (∀ ip, ∀ t ∈ st ip, t ≤ b) →
    List.Chain (· ≤ ·) b (reqs.map Prod.snd) →
    ∃ b2, (∀ ip, ((processAll cfg st reqs) ip).length ≤ cfg.max_messages)
      ∧ (∀ ip, ((processAll cfg st reqs) ip).Sorted (· ≤ ·))
      ∧ (∀ ip, ∀ t ∈ (processAll cfg st reqs) ip, t ≤ b2) := by
  intro reqs
  induction reqs with
  | nil => exact fun st b h1 h2 h3 _ => ⟨b, h1, h2, h3⟩
  | cons p rest ih =>
    rcases p with ⟨req, now⟩
    intro st b h1 h2 h3 hchain
    rw [List.map_cons, List.chain_cons] at hchain
    obtain ⟨hb, hchain⟩ := hchain
    obtain ⟨g1, g2, g3⟩ := offensive_step_inv cfg st req now b hb h1 h2 h3
    exact ih ((offensiveCall cfg st req now).2) now g1 g2 g3 hchain

/-- Counterexample to C2 as stated: with the default configuration, after
a POST at time 0, the count check of a POST at time 60 trims with cutoff
`60 - 60 = 0` and retains the entry `0`, which is exactly `now -
window_seconds` old and hence not *strictly* newer than the cutoff. -/
theorem rate_limit_strict_freshness_fails :
    ¬ (∀ t ∈ ((processAll defaultRateCfg initRLState [(cPostReq, 0)])
          (getClientIp cPostReq)).dropWhile
          (fun t => decide (t < 60 - defaultRateCfg.window_seconds)),
        60 - defaultRateCfg.window_seconds < t) := by
  intro h
  exact absurd (h 0 (by decide)) (by decide)

/-- C2 (amended): over any request sequence whose clock readings are
non-decreasing, every per-IP deque holds at most `max_messages` entries
in non-decreasing order, and at any count check the trimming loop leaves
only entries that are no older than `now - window_seconds` (entries
strictly older having been popped first). -/
theorem rate_limit_window_invariant (cfg : RateCfg) (reqs : List (HttpRequest × Int))
    (hmono : List.Chain' (· ≤ ·) (reqs.map Prod.snd)) :
    ∀ ip,
      ((processAll cfg initRLState reqs) ip).length ≤ cfg.max_messages
      ∧ ((processAll cfg initRLState reqs) ip).Sorted (· ≤ ·)
      ∧ (∀ now t, t ∈ ((processAll cfg initRLState reqs) ip).dropWhile
          (fun t => decide (t < now - cfg.window_seconds)) →
          now - cfg.window_seconds ≤ t) := by
  have main : (∀ ip, ((processAll cfg initRLState reqs) ip).length ≤ cfg.max_messages)
      ∧ (∀ ip, ((processAll cfg initRLState reqs) ip).Sorted (· ≤ ·)) := by
    cases reqs with
    | nil =>
      constructor <;> intro ip <;> simp [processAll, initRLState]
    | cons p rest =>
      rcases p with ⟨req, now⟩
      have hm2 : List.Chain' (· ≤ ·) (now :: rest.map Prod.snd) := by
        simpa using hmono
      obtain ⟨b2, g1, g2, _⟩ :=
        processAll_inv cfg ((req, now) :: rest) initRLState now
          (fun ip => by simp [initRLState])
          (fun ip => by simp [initRLState])
          (fun ip t ht => by simp [initRLState] at ht)
          (by
            rw [List.map_cons, List.chain_cons]
            exact ⟨le_refl now, hm2⟩)
      exact ⟨g1, g2⟩
  intro ip
  exact ⟨main.1 ip, main.2 ip, fun now t ht => sorted_dropWhile_ge (main.2 ip) t ht⟩

/-- Witness for C2 (amended): after two timely POSTs the deque for
`1.2.3.4` is within the bound of 5. -/
theorem rate_limit_window_invariant_witness :
    ((processAll defaultRateCfg initRLState [(cPostReq, 0), (cPostReq, 10)])
        (getClientIp cPostReq)).length ≤ defaultRateCfg.max_messages :=
  ((rate_limit_window_invariant defaultRateCfg [(cPostReq, 0), (cPostReq, 10)]
      (by simp)) (getClientIp cPostReq)).1

/-! ## C8: lazy pagination refines an eager fetch -/

/-- Concatenating the pages the generator yields from `offset` onwards
recovers exactly the rows from `offset` onwards. -/
theorem lazyAux_join {α : Type} (rows : List α) (ps : Nat) (hps : 0 < ps) :
    ∀ offset, (lazyAux rows ps offset).flatten = rows.drop offset := by
  have key : ∀ n offset, rows.length - offset < n →
      (lazyAux rows ps offset).flatten = rows.drop offset := by
    intro n
    induction n with
    | zero => intro offset h; omega
    | succ n ih =>
      intro offset hlt
      rw [lazyAux]
      by_cases h : (paginateUsers rows ps offset).isEmpty = true
      · rw [dif_pos h]
        have hpage : paginateUsers rows ps offset = [] := by simpa using h
        have hdrop : rows.drop offset = [] := by
          rcases List.take_eq_nil_iff.mp hpage with h1 | h1
          · omega
          · exact h1
        simp [hdrop]
      · rw [dif_neg h]
        have hne : paginateUsers rows ps offset ≠ [] := by simpa using h
        have hofflt : offset < rows.length := by
          by_contra hge
          exact hne (by simp [paginateUsers, List.drop_eq_nil_of_le (Nat.le_of_not_lt hge)])
        rw [List.flatten_cons, ih (offset + ps) (by omega)]
        have hdd : rows.drop (offset + ps) = (rows.drop offset).drop ps := by
          rw [List.drop_drop, Nat.add_comm]
        rw [hdd, paginateUsers, List.take_append_drop]
  exact fun offset => key (rows.length - offset + 1) offset (by omega)

/-- The `i`-th page the generator yields from `offset` onwards is the
`paginate_users` page at `offset + i * page_size`, present exactly when
that page is non-empty. -/
theorem lazyAux_pages {α : Type} (rows : List α) (ps : Nat) (hps : 0 < ps) :
    ∀ offset i, (lazyAux rows ps offset)[i]? =
      if (paginateUsers rows ps (offset + i * ps)).isEmpty = true then none
      else some (paginateUsers rows ps (offset + i * ps)) := by
  have key : ∀ n offset i, rows.length - offset < n →
      (lazyAux rows ps offset)[i]? =
        if (paginateUsers rows ps (offset + i * ps)).isEmpty = true then none
        else some (paginateUsers rows ps (offset + i * ps)) := by
    intro n
    induction n with
    | zero => intro offset i h; omega
    | succ n ih =>
      intro offset i hlt
      rw [lazyAux]
      by_cases h : (paginateUsers rows ps offset).isEmpty = true
      · rw [dif_pos h]
        have hpage : paginateUsers rows ps offset = [] := by simpa using h
        have hlen : rows.length ≤ offset := by
          rcases List.take_eq_nil_iff.mp hpage with h1 | h1
          · omega
          · have := List.drop_eq_nil_iff.mp h1
            omega
        have hpage2 : paginateUsers rows ps (offset + i * ps) = [] := by
          simp [paginateUsers, List.drop_eq_nil_of_le (le_trans hlen (Nat.le_add_right _ _))]
        simp [hpage2]
      · rw [dif_neg h]
        have hne : paginateUsers rows ps offset ≠ [] := by simpa using h
        have hofflt : offset < rows.length := by
          by_contra hge
          exact hne (by simp [paginateUsers, List.drop_eq_nil_of_le (Nat.le_of_not_lt hge)])
        cases i with
        | zero =>
          simp [h]
        | succ i =>
          rw [List.getElem?_cons_succ, ih (offset + ps) i (by omega)]
          have harg : offset + ps + i * ps = offset + (i + 1) * ps := by ring
          rw [harg]
  exact fun offset i => key (rows.length - offset + 1) offset i (by omega)

/-- C8: for every positive page size, `lazy_paginate` yields exactly the
non-empty pages `paginate_users` returns at offsets `0, page_size,
2*page_size, ...`, stopping at the first empty page, and concatenating
the yielded pages recovers the whole `user_data` table as an eager fetch
would return it. -/
theorem lazy_paginate_eq_eager {α : Type} (rows : List α) (ps : Nat) (hps : 0 < ps) :
    (lazyPaginate rows ps).flatten = rows
    ∧ ∀ i : Nat, (lazyPaginate rows ps)[i]? =
        if (paginateUsers rows ps (i * ps)).isEmpty = true then none
        else some (paginateUsers rows ps (i * ps)) := by
  constructor
  · simpa [lazyPaginate] using lazyAux_join rows ps hps 0
  · intro i
    have hp := lazyAux_pages rows ps hps 0 i
    rw [Nat.zero_add] at hp
    exact hp

/-- Witness for C8: paginating five rows two at a time yields
`[[1,2],[3,4],[5]]`, whose concatenation is the original table. -/
theorem lazy_paginate_eq_eager_witness :
    (lazyPaginate [1, 2, 3, 4, 5] 2).flatten = [1, 2, 3, 4, 5] :=
  (lazy_paginate_eq_eager [1, 2, 3, 4, 5] 2 (by decide)).1

/-! ## C5: cleanup after user deletion -/

/-- Counterexample to C5 as stated: user 1 sent message 10 and was also
the editor recorded in history 100, which references message 10.
Deleting user 1 deletes message 10, and the message delete
cascade-deletes history 100 (the handler's own comment documents this
cascade), so the history row of which user 1 was the editor is *not*
preserved with a nulled editor — it is gone. -/
theorem cleanup_editor_preserved_fails :
    ¬ (∀ h2 ∈ cDbCascade.histories, h2.editor_id = some 1 →
        { h2 with editor_id := none } ∈ (cleanupUserRelatedData 1 cDbCascade).histories) := by
  decide

/-- C5 (amended): after `cleanup_user_related_data` for user `uid` runs
on commit, no notification addressed to `uid` and no message sent or
received by `uid` remains; messages not involving `uid` survive; and a
`MessageHistory` row whose editor was `uid` is preserved unchanged
(`old_content` and `edited_at` untouched) except for its editor
reference being nulled, provided its message is not among the deleted
ones (histories referencing deleted messages are removed by the FK
cascade). -/
theorem cleanup_user_data (uid : Nat) (db : MessagingDB) :
    (∀ n ∈ (cleanupUserRelatedData uid db).notifications, n.user_id ≠ uid)
    ∧ (∀ m ∈ (cleanupUserRelatedData uid db).messages,
        m.sender_id ≠ uid ∧ m.receiver_id ≠ uid)
    ∧ (∀ m ∈ db.messages, m.sender_id ≠ uid → m.receiver_id ≠ uid →
        m ∈ (cleanupUserRelatedData uid db).messages)
    ∧ (∀ h2 ∈ db.histories, h2.editor_id = some uid →
        (∀ m ∈ db.messages, m.pk = h2.message_id →
          m.sender_id ≠ uid ∧ m.receiver_id ≠ uid) →
        { h2 with editor_id := none } ∈ (cleanupUserRelatedData uid db).histories) := by
  refine ⟨fun n hn => ?_, fun m hm => ?_, fun m hm hs hr => ?_, fun h2 hh2 hed hmsg => ?_⟩
  · simp only [cleanupUserRelatedData, deleteMessagesWhere, List.mem_filter] at hn
    have hu := hn.1.1.2
    simpa using hu
  · simp only [cleanupUserRelatedData, deleteMessagesWhere, List.mem_filter] at hm
    exact ⟨by simpa using hm.1.2, by simpa using hm.2⟩
  · simp only [cleanupUserRelatedData, deleteMessagesWhere, List.mem_filter]
    exact ⟨⟨hm, by simpa using hs⟩, by simpa using hr⟩
  · simp only [cleanupUserRelatedData, deleteMessagesWhere]
    refine List.mem_map.mpr ⟨h2, ?_, ?_⟩
    · refine List.mem_filter.mpr ⟨List.mem_filter.mpr ⟨hh2, ?_⟩, ?_⟩
      · have hnotin : h2.message_id ∉
            ((db.messages.filter fun m => m.sender_id == uid).map fun m => m.pk) := by
          intro hin
          rcases List.mem_map.mp hin with ⟨m, hmF, hpk⟩
          rcases List.mem_filter.mp hmF with ⟨hmdb, hsend⟩
          exact (hmsg m hmdb hpk).1 (by simpa using hsend)
        simpa using hnotin
      · have hnotin : h2.message_id ∉
            (((db.messages.filter fun m => !(m.sender_id == uid)).filter
                fun m => m.receiver_id == uid).map fun m => m.pk) := by
          intro hin
          rcases List.mem_map.mp hin with ⟨m, hmF, hpk⟩
          rcases List.mem_filter.mp hmF with ⟨hmF1, hrecv⟩
          rcases List.mem_filter.mp hmF1 with ⟨hmdb, _⟩
          exact (hmsg m hmdb hpk).2 (by simpa using hrecv)
        simpa using hnotin
    · simp [hed]

/-- Witness for C5 (amended): deleting user 1, who edited a message
exchanged between users 2 and 3, nulls the editor of that history row
while keeping its content, and removes user 1's notification. -/
theorem cleanup_user_data_witness :
    { pk := 101, message_id := 11, old_content := "o", edited_at := 0,
      editor_id := none : HistRow } ∈ (cleanupUserRelatedData 1 cDbSurvive).histories :=
  (cleanup_user_data 1 cDbSurvive).2.2.2
    { pk := 101, message_id := 11, old_content := "o", edited_at := 0, editor_id := some 1 }
    (by decide) (by decide) (by decide)
